import Mathlib

/-!
Verification of the `oxford.py` dictionary-page extractor.

Shallow embedding conventions:
* Python strings are `Str := List Char` (`pystr` converts a Lean literal).
* The parsed HTML document (a BeautifulSoup tree) is the inductive `Node`:
  an element with tag, attribute list and children, or a text run.
  HTML parsing itself is outside the model: an HTTP `Response` carries the
  already-parsed tree in its `content` field.
* CSS selectors are embedded as `Sel` values (descendant and child
  combinators over simple selectors with tag / id / class / attribute
  parts, the only features the source uses).  `Node.select` returns
  matches in document order among the proper descendants of the scope
  node, matching soupsieve closely enough for this code: ancestor chains
  are cut off at the scope node.
* Python exceptions are the `PyErr` error type of `Except`; `list[0]` is
  `idx0`, `tag.attrs[k]` is `getAttrE`, `try/except IndexError` catches
  exactly `.indexError`.
* The process-wide `cls.soup_data` is threaded explicitly: every
  extraction operation has type `SoupData → Except PyErr α × SoupData`
  and returns the (possibly mutated) state.  `replace_with('')` of a tag
  is modelled as removal of that subtree (the empty string it leaves
  behind is invisible to every read the source performs), and
  `decompose` likewise removes the subtree.
-/

abbrev Str := List Char

def pystr (s : String) : Str := s.data

/-- ASCII whitespace test used to model Python `str.strip()`. -/
def isSpaceChar (c : Char) : Bool :=
  c = ' ' || c = '\n' || c = '\t' || c = '\r'

/-- Python `str.strip()`: drop whitespace from both ends. -/
def stripW (s : Str) : Str :=
  ((s.dropWhile isSpaceChar).reverse.dropWhile isSpaceChar).reverse

/-- Python `str.split(c)` for a one-character separator: no collapsing,
`[''] ` on the empty string, trailing separator yields a trailing `''`. -/
def splitOnChar (c : Char) : Str → List Str
  | [] => [[]]
  | x :: xs =>
    if x = c then [] :: splitOnChar c xs
    else
      match splitOnChar c xs with
      | [] => [[x]]
      | r :: rs => (x :: r) :: rs

/-- Python `' '.join(parts)`. -/
def joinSp (parts : List Str) : Str :=
  List.intercalate (pystr " ") parts

/-- An HTML tree node: an element (tag, attributes, children) or a text run. -/
inductive Node where
  | text (s : Str)
  | elem (tag : Str) (attrs : List (Str × Str)) (children : List Node)

/-- Tag and attributes of an element: all the information selector
matching may inspect about an ancestor. -/
abbrev ElemInfo := Str × List (Str × Str)

/-- First binding of an attribute name, as bs4 `tag.attrs` lookup. -/
def lookupAttr (attrs : List (Str × Str)) (k : Str) : Option Str :=
  match attrs with
  | [] => none
  | (k', v) :: rest => if k' = k then some v else lookupAttr rest k

/-- The whitespace-separated class tokens of an element. -/
def classesOf (attrs : List (Str × Str)) : List Str :=
  ((splitOnChar ' ' ((lookupAttr attrs (pystr "class")).getD [])).filter (· ≠ []))

mutual

/-- bs4 `tag.text` / `get_text()`: concatenation of all text runs below. -/
def get_text : Node → Str
  | .text s => s
  | .elem _ _ cs => get_textL cs

def get_textL : List Node → Str
  | [] => []
  | n :: ns => get_text n ++ get_textL ns

end

/-- bs4 `tag.string`: the unique text run if the element wraps exactly one
child chain ending in a text run, else `none`. -/
def nodeString : Node → Option Str
  | .text s => some s
  | .elem _ _ [c] => nodeString c
  | .elem _ _ _ => none

/-- bs4 `find_all(text=True, recursive=False)`: the direct text children. -/
def directTexts (n : Node) : List Str :=
  match n with
  | .text _ => []
  | .elem _ _ cs => cs.filterMap (fun c => match c with
      | .text s => some s
      | .elem _ _ _ => none)

/-- A simple CSS selector: optional tag, optional id, required classes,
attribute conditions (presence when the value is `none`, equality else). -/
structure SimpleSel where
  tagSel : Option Str
  idSel : Option Str
  classSels : List Str
  attrConds : List (Str × Option Str)

/-- A selector chain: rightmost simple selector applied to the candidate
node, the rest reached through descendant (` `) or child (`>`) steps. -/
inductive Sel where
  | simple (s : SimpleSel)
  | desc (p : Sel) (s : SimpleSel)
  | child (p : Sel) (s : SimpleSel)

def matchesSimple (ss : SimpleSel) (t : Str) (a : List (Str × Str)) : Bool :=
  (match ss.tagSel with | none => true | some tg => t = tg) &&
  (match ss.idSel with | none => true | some i => lookupAttr a (pystr "id") = some i) &&
  ss.classSels.all (fun c => (classesOf a).contains c) &&
  ss.attrConds.all (fun kv =>
    match kv.2 with
    | none => (lookupAttr a kv.1).isSome
    | some v => lookupAttr a kv.1 = some v)

/-- Does `sel` match an element with tag `t`, attributes `a` and ancestor
chain `anc` (nearest ancestor first)?  The descendant step searches the
chain one ancestor at a time, so recursion is structural in the chain. -/
def matchesSel : Sel → Str → List (Str × Str) → List ElemInfo → Bool
  | .simple ss, t, a, _ => matchesSimple ss t a
  | .child _ ss, t, a, [] => matchesSimple ss t a && false
  | .child p ss, t, a, (pt, pa) :: rest => matchesSimple ss t a && matchesSel p pt pa rest
  | .desc _ ss, t, a, [] => matchesSimple ss t a && false
  | .desc p ss, t, a, (pt, pa) :: rest =>
      matchesSimple ss t a && (matchesSel p pt pa rest || matchesSel (.desc p ss) t a rest)

mutual

/-- Matches of `sel` in the subtree rooted at a node (the node itself is a
candidate), in document order, given the ancestor chain `anc`. -/
def selN (sel : Sel) (anc : List ElemInfo) : Node → List Node
  | .text _ => []
  | .elem t a cs =>
      (if matchesSel sel t a anc then [Node.elem t a cs] else []) ++
        selL sel ((t, a) :: anc) cs

def selL (sel : Sel) (anc : List ElemInfo) : List Node → List Node
  | [] => []
  | n :: ns => selN sel anc n ++ selL sel anc ns

end

/-- bs4 `tag.select(sel)` / `soup.select(sel)`: matches among the proper
descendants of the scope node, in document order. -/
def Node.select (root : Node) (sel : Sel) : List Node :=
  match root with
  | .text _ => []
  | .elem t a cs => selL sel [(t, a)] cs

mutual

/-- `decompose` of every match of `sel`: drop matching subtrees. -/
def delN (sel : Sel) (anc : List ElemInfo) : Node → List Node
  | .text s => [Node.text s]
  | .elem t a cs =>
      if matchesSel sel t a anc then []
      else [Node.elem t a (delL sel ((t, a) :: anc) cs)]

def delL (sel : Sel) (anc : List ElemInfo) : List Node → List Node
  | [] => []
  | n :: ns => delN sel anc n ++ delL sel anc ns

end

def Node.deleteAll (root : Node) (sel : Sel) : Node :=
  match root with
  | .text s => .text s
  | .elem t a cs => .elem t a (delL sel [(t, a)] cs)

mutual

/-- Rewrite the first `k` matches of `sel` (in `Node.select` order) by `f`;
returns the rewritten node and the count still to rewrite.  A rewritten
match is not descended into. -/
def rwN (sel : Sel) (f : Node → Node) (anc : List ElemInfo) :
    Node → Nat → Node × Nat
  | .text s, k => (.text s, k)
  | .elem t a cs, k =>
      if k = 0 then (.elem t a cs, 0)
      else if matchesSel sel t a anc then (f (.elem t a cs), k - 1)
      else
        let r := rwL sel f ((t, a) :: anc) cs k
        (.elem t a r.1, r.2)

def rwL (sel : Sel) (f : Node → Node) (anc : List ElemInfo) :
    List Node → Nat → List Node × Nat
  | [], k => ([], k)
  | n :: ns, k =>
      let r1 := rwN sel f anc n k
      let r2 := rwL sel f anc ns r1.2
      (r1.1 :: r2.1, r2.2)

end

def Node.rewriteFirstK (root : Node) (sel : Sel) (f : Node → Node) (k : Nat) : Node :=
  match root with
  | .text s => .text s
  | .elem t a cs => .elem t a (rwL sel f [(t, a)] cs k).1

/-- Python exceptions that the source can raise or catch. -/
inductive PyErr where
  | wordNotFound
  | indexError
  | keyError
  | attributeError
  | typeError
deriving DecidableEq

/-- Python `lst[0]`. -/
def idx0 : List α → Except PyErr α
  | [] => .error .indexError
  | a :: _ => .ok a

/-- Python `tag.attrs[k]`. -/
def getAttrE (n : Node) (k : Str) : Except PyErr Str :=
  match n with
  | .text _ => .error .keyError
  | .elem _ a _ =>
    match lookupAttr a k with
    | none => .error .keyError
    | some v => .ok v

/-- `try: body except IndexError: return fallback`. -/
def catchIdx (body : Except PyErr α) (fallback : α) : Except PyErr α :=
  match body with
  | .error .indexError => .ok fallback
  | x => x

/-- Python truthiness of an optional string. -/
def truthyS : Option Str → Bool
  | none => false
  | some s => s ≠ []

/-- Python `needle in hay` on strings: substring containment. -/
def strIn (needle : Str) : Str → Bool
  | [] => needle.isPrefixOf []
  | c :: rest => needle.isPrefixOf (c :: rest) || strIn needle rest

/-- Fixture helper: element from Lean string literals. -/
def el (tag : String) (attrs : List (String × String)) (cs : List Node) : Node :=
  .elem tag.data (attrs.map (fun p => (p.1.data, p.2.data))) cs

/-- Fixture helper: text run from a Lean string literal. -/
def tx (s : String) : Node := .text s.data

/-- Simple-selector builders (from the CSS selector strings in the source). -/
def sTag (t : String) : SimpleSel := ⟨some t.data, none, [], []⟩

def sClass (c : String) : SimpleSel := ⟨none, none, [c.data], []⟩

def sId (i : String) : SimpleSel := ⟨none, some i.data, [], []⟩

def sAttr (k : String) : SimpleSel := ⟨none, none, [], [(k.data, none)]⟩

def sAttrEq (k v : String) : SimpleSel := ⟨none, none, [], [(k.data, some v.data)]⟩

def sTagClass (t c : String) : SimpleSel := ⟨some t.data, none, [c.data], []⟩

def sTagClassAttr (t c k : String) : SimpleSel := ⟨some t.data, none, [c.data], [(k.data, none)]⟩

/-- `[title="v"]` selectors used by the sanitization step. -/
def attrTitleSel (v : String) : Sel := .simple (sAttrEq "title" v)

namespace Word

/- Selectors, one per selector string of class `Word`. -/

/-- `#entryContent > .entry` -/
def entry_selector : Sel := .child (.simple (sId "entryContent")) (sClass "entry")

/-- `.top-container` -/
def header_selector : Sel := .simple (sClass "top-container")

/-- `.top-container .headword` -/
def title_selector : Sel := .desc header_selector (sClass "headword")

/-- `.top-container .pos` -/
def wordform_selector : Sel := .desc header_selector (sClass "pos")

/-- `.top-container .grammar` -/
def property_global_selector : Sel := .desc header_selector (sClass "grammar")

/-- `tr.verb_form[form]` -/
def verb_forms_selector : Sel := .simple (sTagClassAttr "tr" "verb_form" "form")

/-- `td.verb_form` -/
def verb_forms_selector_td : Sel := .simple (sTagClass "td" "verb_form")

/-- `[geo=br] .phon` -/
def br_pronounce_selector : Sel := .desc (.simple (sAttrEq "geo" "br")) (sClass "phon")

/-- `[geo=n_am] .phon` -/
def am_pronounce_selector : Sel := .desc (.simple (sAttrEq "geo" "n_am")) (sClass "phon")

/-- `[geo=br] [data-src-ogg]` -/
def br_pronounce_audio_ogg_selector : Sel :=
  .desc (.simple (sAttrEq "geo" "br")) (sAttr "data-src-ogg")

/-- `[geo=n_am] [data-src-ogg]` -/
def am_pronounce_audio_ogg_selector : Sel :=
  .desc (.simple (sAttrEq "geo" "n_am")) (sAttr "data-src-ogg")

/-- `[geo=br] [data-src-mp3]` -/
def br_pronounce_audio_mp3_selector : Sel :=
  .desc (.simple (sAttrEq "geo" "br")) (sAttr "data-src-mp3")

/-- `[geo=n_am] [data-src-mp3]` -/
def am_pronounce_audio_mp3_selector : Sel :=
  .desc (.simple (sAttrEq "geo" "n_am")) (sAttr "data-src-mp3")

/-- `.senses_multiple` -/
def definition_body_selector : Sel := .simple (sClass "senses_multiple")

/-- `.sense_single` -/
def definition_body_selector_single : Sel := .simple (sClass "sense_single")

/-- `.senses_multiple > .shcut-g` -/
def namespaces_selector : Sel :=
  .child (.simple (sClass "senses_multiple")) (sClass "shcut-g")

/-- `.senses_multiple .sense > .examples .x` -/
def examples_selector : Sel :=
  .desc (.child (.desc (.simple (sClass "senses_multiple")) (sClass "sense"))
    (sClass "examples")) (sClass "x")

/-- `.senses_multiple .sense > .def` -/
def definitions_selector : Sel :=
  .child (.desc (.simple (sClass "senses_multiple")) (sClass "sense")) (sClass "def")

/-- `.res-g [title="Extra examples"] .x-gs .x` -/
def extra_examples_selector : Sel :=
  .desc (.desc (.desc (.simple (sClass "res-g")) (sAttrEq "title" "Extra examples"))
    (sClass "x-gs")) (sClass "x")

/-- `.phrasal_verb_links a` -/
def phrasal_verbs_selector : Sel := .desc (.simple (sClass "phrasal_verb_links")) (sTag "a")

/-- `.idioms > .idm-g` -/
def idioms_selector : Sel := .child (.simple (sClass "idioms")) (sClass "idm-g")

/-- `#rightcolumn #relatedentries` -/
def other_results_selector : Sel := .desc (.simple (sId "rightcolumn")) (sId "relatedentries")

/- Selectors appearing inline in method bodies. -/

/-- `#search-results > h1` -/
def search_results_h1_selector : Sel := .child (.simple (sId "search-results")) (sTag "h1")

/-- `span.vf_prefix` -/
def vf_prefix_selector : Sel := .simple (sTagClass "span" "vf_prefix")

/-- `h2.shcut` -/
def h2_shcut_selector : Sel := .simple (sTagClass "h2" "shcut")

/-- `.sense` -/
def sense_selector : Sel := .simple (sClass "sense")

/-- `.grammar` -/
def grammar_selector : Sel := .simple (sClass "grammar")

/-- `.labels` -/
def labels_selector : Sel := .simple (sClass "labels")

/-- `.dis-g` -/
def disg_selector : Sel := .simple (sClass "dis-g")

/-- `.def` -/
def def_selector : Sel := .simple (sClass "def")

/-- `.examples .x` -/
def examples_x_selector : Sel := .desc (.simple (sClass "examples")) (sClass "x")

/-- `[unbox=extra_examples] .examples .unx` -/
def unbox_selector : Sel :=
  .desc (.desc (.simple (sAttrEq "unbox" "extra_examples")) (sClass "examples")) (sClass "unx")

/-- `.x` -/
def x_selector : Sel := .simple (sClass "x")

/-- `.idm-l` -/
def idm_l_selector : Sel := .simple (sClass "idm-l")

/-- `.idm` -/
def idm_selector : Sel := .simple (sClass "idm")

/-- `.xrefs a` -/
def xrefs_a_selector : Sel := .desc (.simple (sClass "xrefs")) (sTag "a")

/-- `.xh` -/
def xh_selector : Sel := .simple (sClass "xh")

/-- `dt` -/
def dt_selector : Sel := .simple (sTag "dt")

/-- `dd` -/
def dd_selector : Sel := .simple (sTag "dd")

/-- `li` -/
def li_selector : Sel := .simple (sTag "li")

/-- `span` -/
def span_selector : Sel := .simple (sTag "span")

/-- `pos` -/
def pos_selector : Sel := .simple (sTag "pos")

/-- `li a` -/
def li_a_selector : Sel := .desc (.simple (sTag "li")) (sTag "a")

/-- The process-wide `cls.soup_data`. -/
abbrev SoupData := Option Node

/-- The HTTP response: status code and the parsed body tree (HTML parsing
is external to the model, so `content` already is the tree). -/
structure Response where
  status_code : Nat
  content : Node

/-- `get_url`. -/
def get_url (word : Str) (is_search : Bool) : Str :=
  (if is_search then pystr "https://www.oxfordlearnersdictionaries.com/search/english/?q="
   else pystr "https://www.oxfordlearnersdictionaries.com/definition/english/") ++ word

/-- `Word.__parse_word`: raise `WordNotFound` on 404; store the parsed
tree; raise `WordNotFound` when the `#search-results > h1` heading has a
`.string` starting with the marker (a heading without a `.string` makes
`.startswith` an attribute access on `None`). -/
def parse_word (page_html : Response) (soup_data : SoupData) :
    Except PyErr Unit × SoupData :=
  if page_html.status_code = 404 then (.error .wordNotFound, soup_data)
  else
    let sd := some page_html.content
    match (page_html.content.select search_results_h1_selector).head? with
    | none => (.ok (), sd)
    | some no_exact =>
      match nodeString no_exact with
      | none => (.error .attributeError, sd)
      | some s =>
        if (pystr "No exact match found").isPrefixOf s then (.error .wordNotFound, sd)
        else (.ok (), sd)

/-- `Word.delete` (callers guarantee `soup_data` is set). -/
def delete (sel : Sel) (soup_data : SoupData) : SoupData :=
  match soup_data with
  | none => none
  | some doc => some (doc.deleteAll sel)

/-- `Word.get`: parse (the transport result is the `page_html` argument),
then sanitize by deleting the five auxiliary regions. -/
def get (page_html : Response) (soup_data : SoupData) : Except PyErr Unit × SoupData :=
  match parse_word page_html soup_data with
  | (.error e, sd) => (.error e, sd)
  | (.ok _, sd) =>
    match sd with
    | none => (.ok (), none)
    | some doc =>
      (.ok (), some (((((doc.deleteAll (attrTitleSel "Oxford Collocations Dictionary")).deleteAll
        (attrTitleSel "British/American")).deleteAll
        (attrTitleSel "Express Yourself")).deleteAll
        (attrTitleSel "Collocations")).deleteAll
        (attrTitleSel "Word Origin")))

/-- A `result[form]` value of `verb_forms`: prefix text and remaining text. -/
abbrev VFEntry := Str × Str

/-- The `verb_forms` result dict as an insertion-ordered association list. -/
abbrev VFMap := List (Str × VFEntry)

/-- Python dict update: overwrite in place or append. -/
def updateAssoc (m : VFMap) (k : Str) (v : VFEntry) : VFMap :=
  match m with
  | [] => [(k, v)]
  | (k', v') :: rest => if k' = k then (k, v) :: rest else (k', v') :: updateAssoc rest k v

/-- One iteration of the `verb_forms` loop (pure part): form attribute,
first `td.verb_form`, its `span.vf_prefix` text, and the remaining text
after the prefix span is replaced by the empty string. -/
def vf_row (row : Node) : Except PyErr (Str × VFEntry) := do
  let form ← getAttrE row (pystr "form")
  let value ← idx0 (row.select verb_forms_selector_td)
  let span_tag ← idx0 (value.select vf_prefix_selector)
  let pfx := get_text span_tag
  let value2 := value.rewriteFirstK vf_prefix_selector (fun _ => .text []) 1
  .ok (form, (pfx, stripW (get_text value2)))

/-- The destructive effect of one `verb_forms` iteration on its row. -/
def vf_strip_row (row : Node) : Node :=
  row.rewriteFirstK verb_forms_selector_td
    (fun td => td.rewriteFirstK vf_prefix_selector (fun _ => .text []) 1) 1

/-- The `verb_forms` loop: build the dict; an `IndexError` is caught by
the surrounding `try` (yielding `None`); any other error propagates.
Also counts the rows whose prefix span was stripped. -/
def vf_go : List Node → VFMap → Nat → Except PyErr (Option VFMap) × Nat
  | [], acc, k => (.ok (some acc), k)
  | row :: rest, acc, k =>
    match vf_row row with
    | .ok (form, ent) => vf_go rest (updateAssoc acc form ent) (k + 1)
    | .error .indexError => (.ok none, k)
    | .error e => (.error e, k)

/-- `Word.verb_forms` (destructive: strips the processed prefix spans). -/
def verb_forms (soup_data : SoupData) : Except PyErr (Option VFMap) × SoupData :=
  match soup_data with
  | none => (.ok none, none)
  | some doc =>
    let r := vf_go (doc.select verb_forms_selector) [] 0
    (r.1, some (doc.rewriteFirstK verb_forms_selector vf_strip_row r.2))

/-- The effect of `for span_tag in name.select('span'): span_tag.replace_with('')`:
every descendant `span` subtree is dropped (the empty replacement string
is invisible to the text reads the source performs afterwards). -/
def strip_span (n : Node) : Node := n.deleteAll span_selector

/-- `Word.name` (destructive: strips the spans of the first headword). -/
def name (soup_data : SoupData) : Except PyErr (Option Str) × SoupData :=
  match soup_data with
  | none => (.ok none, none)
  | some doc =>
    match (doc.select title_selector).head? with
    | none => (.error .indexError, some doc)
    | some n =>
      (.ok (some (stripW (get_text (strip_span n)))),
       some (doc.rewriteFirstK title_selector strip_span 1))

/-- `Word.id` (value part). -/
def id_val (soup_data : SoupData) : Except PyErr (Option Str) :=
  match soup_data with
  | none => .ok none
  | some doc => do
    let e ← idx0 (doc.select entry_selector)
    let i ← getAttrE e (pystr "id")
    .ok (some i)

/-- `Word.id`. -/
def id (soup_data : SoupData) : Except PyErr (Option Str) × SoupData :=
  (id_val soup_data, soup_data)

/-- `Word.wordform` (value part). -/
def wordform_val (soup_data : SoupData) : Except PyErr (Option Str) :=
  match soup_data with
  | none => .ok none
  | some doc =>
    catchIdx (do
      let t ← idx0 (doc.select wordform_selector)
      Except.ok (some (get_text t))) none

/-- `Word.wordform`. -/
def wordform (soup_data : SoupData) : Except PyErr (Option Str) × SoupData :=
  (wordform_val soup_data, soup_data)

/-- `Word.property_global` (value part). -/
def property_global_val (soup_data : SoupData) : Except PyErr (Option Str) :=
  match soup_data with
  | none => .ok none
  | some doc =>
    catchIdx (do
      let t ← idx0 (doc.select property_global_selector)
      Except.ok (some (get_text t))) none

/-- `Word.property_global`. -/
def property_global (soup_data : SoupData) : Except PyErr (Option Str) × SoupData :=
  (property_global_val soup_data, soup_data)

/-- `Word.get_prefix_from_filename`. -/
def get_prefix_from_filename (filename : Str) : Option Str :=
  if strIn (pystr "_gb_") filename then some (pystr "BrE")
  else if strIn (pystr "_us_") filename then some (pystr "NAmE")
  else none

/-- `get_prefix_from_filename` as called on a possibly-`None` argument
(`'_gb_' in None` raises `TypeError`). -/
def get_prefix_from_filename_py : Option Str → Except PyErr (Option Str)
  | none => .error .typeError
  | some f => .ok (get_prefix_from_filename f)

/-- One of the two dicts built by `pronunciations` (keys in source order:
`prefix`, `ipa`, `ogg`, `mp3`; the first is named `pfx` here). -/
structure PronRec where
  pfx : Option Str
  ipa : Option Str
  ogg : Option Str
  mp3 : Option Str
deriving DecidableEq

/-- First `try` of `pronunciations`: both `.phon` texts, all-or-nothing. -/
def pron_ipa (doc : Node) : Option (Str × Str) :=
  match (doc.select br_pronounce_selector).head?, (doc.select am_pronounce_selector).head? with
  | some b, some a => some (get_text b, get_text a)
  | _, _ => none

/-- Second `try` of `pronunciations`: the four audio attributes assigned
sequentially, keeping partial assignments when an `IndexError` stops the
block; a missing attribute on a matched tag would be an uncaught
`KeyError` (the selectors make that impossible, proved below). -/
def pron_audio (doc : Node) :
    Except PyErr (Option Str × Option Str × Option Str × Option Str) :=
  match (doc.select br_pronounce_audio_ogg_selector).head? with
  | none => .ok (none, none, none, none)
  | some t1 =>
    match getAttrE t1 (pystr "data-src-ogg") with
    | .error e => .error e
    | .ok bogg =>
      match (doc.select am_pronounce_audio_ogg_selector).head? with
      | none => .ok (some bogg, none, none, none)
      | some t2 =>
        match getAttrE t2 (pystr "data-src-ogg") with
        | .error e => .error e
        | .ok aogg =>
          match (doc.select br_pronounce_audio_mp3_selector).head? with
          | none => .ok (some bogg, some aogg, none, none)
          | some t3 =>
            match getAttrE t3 (pystr "data-src-mp3") with
            | .error e => .error e
            | .ok bmp3 =>
              match (doc.select am_pronounce_audio_mp3_selector).head? with
              | none => .ok (some bogg, some aogg, some bmp3, none)
              | some t4 =>
                match getAttrE t4 (pystr "data-src-mp3") with
                | .error e => .error e
                | .ok amp3 => .ok (some bogg, some aogg, some bmp3, some amp3)

/-- `if prefix is None and (ogg or mp3): prefix = gpff(ogg) or gpff(mp3)`. -/
def pron_infer (pfx0 ogg mp3 : Option Str) : Except PyErr (Option Str) :=
  match pfx0 with
  | some p => .ok (some p)
  | none =>
    if truthyS ogg || truthyS mp3 then do
      let p1 ← get_prefix_from_filename_py ogg
      if truthyS p1 then .ok p1 else get_prefix_from_filename_py mp3
    else .ok none

/-- `Word.pronunciations` (value part). -/
def pronunciations_val (soup_data : SoupData) : Except PyErr (Option (List PronRec)) :=
  match soup_data with
  | none => .ok none
  | some doc => do
    let ipas := pron_ipa doc
    let audio ← pron_audio doc
    let bpfx ← pron_infer (if ipas.isSome then some (pystr "BrE") else none)
      audio.1 audio.2.2.1
    let apfx ← pron_infer (if ipas.isSome then some (pystr "nAmE") else none)
      audio.2.1 audio.2.2.2
    Except.ok (some
      [⟨bpfx, ipas.map (·.1), audio.1, audio.2.2.1⟩,
       ⟨apfx, ipas.map (·.2), audio.2.1, audio.2.2.2⟩])

/-- `Word.pronunciations`. -/
def pronunciations (soup_data : SoupData) :
    Except PyErr (Option (List PronRec)) × SoupData :=
  (pronunciations_val soup_data, soup_data)

/-- `Word.extract_id`: `link.split('/')[-1]`. -/
def extract_id (link : Str) : Str := (splitOnChar '/' link).getLastD []

/-- A `{'id': ..., 'name': ...}` reference dict (also the shape of the
`phrasal_verbs` items). -/
structure Reference where
  id : Str
  name : Str
deriving DecidableEq

/-- One iteration of the `get_references` loop. -/
def ref_of_tag (tag : Node) : Except PyErr Reference := do
  let href ← getAttrE tag (pystr "href")
  Except.ok ⟨extract_id href, get_text tag⟩

/-- `Word.get_references`. -/
def get_references (soup_data : SoupData) (tags : Node) :
    Except PyErr (Option (List Reference)) :=
  match soup_data with
  | none => .ok none
  | some _ => ((tags.select xrefs_a_selector).mapM ref_of_tag).map some

/-- `Word.references` (value part): the header is indexed without a guard. -/
def references_val (soup_data : SoupData) : Except PyErr (Option (List Reference)) :=
  match soup_data with
  | none => .ok none
  | some doc => do
    let header_tag ← idx0 (doc.select header_selector)
    get_references soup_data header_tag

/-- `Word.references`. -/
def references (soup_data : SoupData) :
    Except PyErr (Option (List Reference)) × SoupData :=
  (references_val soup_data, soup_data)

/-- `Word.definitions` with `full=False` (text of every `.def`). -/
def definitions_simple (soup_data : SoupData) : Except PyErr (Option (List Str)) :=
  match soup_data with
  | none => .ok none
  | some doc => .ok (some ((doc.select definitions_selector).map get_text))

/-- `Word.examples`. -/
def examples_val (soup_data : SoupData) : Except PyErr (Option (List Str)) :=
  match soup_data with
  | none => .ok none
  | some doc => .ok (some ((doc.select examples_selector).map get_text))

/-- One iteration of the `phrasal_verbs` loop. -/
def pv_of_tag (tag : Node) : Except PyErr Reference := do
  let ph ← idx0 (tag.select xh_selector)
  let href ← getAttrE tag (pystr "href")
  Except.ok ⟨extract_id href, get_text ph⟩

/-- `Word.phrasal_verbs` (value part). -/
def phrasal_verbs_val (soup_data : SoupData) : Except PyErr (Option (List Reference)) :=
  match soup_data with
  | none => .ok none
  | some doc => ((doc.select phrasal_verbs_selector).mapM pv_of_tag).map some

/-- `Word.phrasal_verbs`. -/
def phrasal_verbs (soup_data : SoupData) :
    Except PyErr (Option (List Reference)) × SoupData :=
  (phrasal_verbs_val soup_data, soup_data)

/-- The dict built by `Word._parse_definition` (`none` = key absent; the
`references` key is dropped when the list is empty). -/
structure SenseDef where
  property : Option Str
  label : Option Str
  refer : Option Str
  references : Option (List Reference)
  description : Option Str
  examples : List Str
  extra_example : List Str
deriving DecidableEq

/-- `Word._parse_definition` on a present document. -/
def parse_definition_core (soup_data : SoupData) (parent_tag : Node) :
    Except PyErr SenseDef := do
  let property := ((parent_tag.select grammar_selector).head?).map get_text
  let label := ((parent_tag.select labels_selector).head?).map get_text
  let refer := ((parent_tag.select disg_selector).head?).map get_text
  let refs ← get_references soup_data parent_tag
  let references := match refs with
    | some l => if l = [] then none else some l
    | none => none
  let description := ((parent_tag.select def_selector).head?).map get_text
  let examples := (parent_tag.select examples_x_selector).map get_text
  let extra := (parent_tag.select unbox_selector).map get_text
  Except.ok ⟨property, label, refer, references, description, examples, extra⟩

/-- `Word._parse_definition` (early `None` when no document is stored). -/
def parse_definition (soup_data : SoupData) (parent_tag : Node) :
    Except PyErr (Option SenseDef) :=
  match soup_data with
  | none => .ok none
  | some _ => (parse_definition_core soup_data parent_tag).map some

/-- A `{'namespace': ..., 'definitions': ...}` group of `definition_full`
(`ns` is the Python `namespace` key). -/
structure SenseGroup where
  ns : Option Str
  definitions : List SenseDef
deriving DecidableEq

/-- One iteration of the namespace loop of `definition_full`. -/
def group_of_namespace_tag (soup_data : SoupData) (nt : Node) :
    Except PyErr SenseGroup := do
  let nsv := ((nt.select h2_shcut_selector).head?).map get_text
  let defs ← (nt.select sense_selector).mapM (parse_definition_core soup_data)
  Except.ok ⟨nsv, defs⟩

/-- `Word.definition_full` (value part). -/
def definition_full_val (soup_data : SoupData) :
    Except PyErr (Option (List SenseGroup)) :=
  match soup_data with
  | none => .ok none
  | some doc => do
    let namespace_tags := doc.select namespaces_selector
    let info ← namespace_tags.mapM (group_of_namespace_tag soup_data)
    if info.length = 0 then do
      let db := doc.select definition_body_selector
      let def_body_tags :=
        if db.length = 0 then doc.select definition_body_selector_single else db
      let defs ← (def_body_tags.flatMap (fun b => b.select sense_selector)).mapM
        (parse_definition_core soup_data)
      Except.ok (some [⟨some (pystr "__GLOBAL__"), defs⟩])
    else Except.ok (some info)

/-- `Word.definition_full`. -/
def definition_full (soup_data : SoupData) :
    Except PyErr (Option (List SenseGroup)) × SoupData :=
  (definition_full_val soup_data, soup_data)

/-- The summary dict of an idiom. -/
structure IdiomSummary where
  label : Option Str
  refer : Option Str
  references : Option (List Reference)
deriving DecidableEq

/-- A sub-definition dict of an idiom. -/
structure IdiomDef where
  description : Option Str
  label : Option Str
  refer : Option Str
  references : Option (List Reference)
  examples : List Str
deriving DecidableEq

/-- An idiom record. -/
structure IdiomRec where
  name : Str
  summary : IdiomSummary
  definitions : List IdiomDef
deriving DecidableEq

/-- One iteration of the inner definition loop of `idioms`. -/
def idiom_def_of_tag (soup_data : SoupData) (dt : Node) : Except PyErr IdiomDef := do
  let description := ((dt.select def_selector).head?).map get_text
  let label := ((dt.select labels_selector).head?).map get_text
  let refer := ((dt.select disg_selector).head?).map get_text
  let refs ← get_references soup_data dt
  let references := match refs with
    | some l => if l = [] then none else some l
    | none => none
  let examples := (dt.select x_selector).map get_text
  Except.ok ⟨description, label, refer, references, examples⟩

/-- One iteration of the outer loop of `idioms`: the `.idm-l` text, with
`.idm` as fallback (whose `IndexError` is uncaught). -/
def idiom_of_tag (soup_data : SoupData) (it : Node) : Except PyErr IdiomRec := do
  let nm ← match (it.select idm_l_selector).head? with
    | some t => Except.ok (get_text t)
    | none => (idx0 (it.select idm_selector)).map get_text
  let label := ((it.select labels_selector).head?).map get_text
  let refer := ((it.select disg_selector).head?).map get_text
  let refs ← get_references soup_data it
  let references := match refs with
    | some l => if l = [] then none else some l
    | none => none
  let defs ← (it.select sense_selector).mapM (idiom_def_of_tag soup_data)
  Except.ok ⟨nm, ⟨label, refer, references⟩, defs⟩

/-- `Word.idioms` (value part): no `None` guard in the source, so a call
before a fetch dereferences `None` (an `AttributeError`). -/
def idioms_val (soup_data : SoupData) : Except PyErr (List IdiomRec) :=
  match soup_data with
  | none => .error .attributeError
  | some doc => (doc.select idioms_selector).mapM (idiom_of_tag soup_data)

/-- `Word.idioms`. -/
def idioms (soup_data : SoupData) : Except PyErr (List IdiomRec) × SoupData :=
  (idioms_val soup_data, soup_data)

/-- An item of `other_results` (`wordform = none` = key absent). -/
structure OtherItem where
  name : Str
  id : Str
  wordform : Option Str
deriving DecidableEq

/-- One `{header: results}` group of `other_results`. -/
structure OtherGroup where
  header : Str
  results : List OtherItem
deriving DecidableEq

/-- Inner item loop of `other_results`: the direct text runs of the first
`span`, with the `pos` text (or `''`) appended. -/
def or_names_of_li (li : Node) : Except PyErr (List Str) := do
  let sp ← idx0 (li.select span_selector)
  let names := directTexts sp
  let wf := match (li.select pos_selector).head? with
    | some p => get_text p
    | none => []
  Except.ok (names ++ [wf])

/-- Build one result dict from a name list and an id. -/
def or_item (nm : List Str) (i : Str) : OtherItem :=
  ⟨joinSp (nm.dropLast.map stripW), i, (nm.getLast?).map stripW⟩

/-- One header/list pairing of `other_results`, including the
`list(filter(None, ...))` step. -/
def or_group (h : Node) (dd : Node) : Except PyErr OtherGroup := do
  let items ← (dd.select li_selector).mapM or_names_of_li
  let items2 := items.filter (fun l => l ≠ [])
  let ids ← (dd.select li_a_selector).mapM (fun a => (getAttrE a (pystr "href")).map extract_id)
  Except.ok ⟨get_text h, (items2.zip ids).map (fun p => or_item p.1 p.2)⟩

/-- `Word.other_results` (value part): the `try` only guards the
right-column lookup, so a call before any fetch is an uncaught
`AttributeError`; a missing right column is a caught `IndexError`. -/
def other_results_val (soup_data : SoupData) : Except PyErr (Option (List OtherGroup)) :=
  match soup_data with
  | none => .error .attributeError
  | some doc =>
    match (doc.select other_results_selector).head? with
    | none => .ok none
    | some rightcolumn_tags => do
      let hs := rightcolumn_tags.select dt_selector
      let ds := rightcolumn_tags.select dd_selector
      let gs ← (hs.zip ds).mapM (fun p => or_group p.1 p.2)
      Except.ok (some gs)

/-- `Word.other_results`. -/
def other_results (soup_data : SoupData) :
    Except PyErr (Option (List OtherGroup)) × SoupData :=
  (other_results_val soup_data, soup_data)

/-- The dict built by `Word.info` (`none` on an optional field = key
absent: `property`/`other_results` are popped when falsy, the two verb
fields exist only for verbs). -/
structure Entry where
  id : Option Str
  name : Option Str
  wordform : Option Str
  pronunciations : Option (List PronRec)
  property : Option Str
  definitions : Option (List SenseGroup)
  idioms : List IdiomRec
  other_results : Option (List OtherGroup)
  phrasal_verbs : Option (Option (List Reference))
  verb_forms : Option (Option VFMap)
deriving DecidableEq

/-- `Word.info`: the dict fields are computed in source order (so `name`
mutates the document before the later reads), `property` and
`other_results` are popped when falsy, and the two verb-only fields are
added exactly when the wordform is `verb`. -/
def info (soup_data : SoupData) : Except PyErr (Option Entry) × SoupData :=
  match soup_data with
  | none => (.ok none, none)
  | some doc =>
    match id_val (some doc) with
    | .error e => (.error e, some doc)
    | .ok idv =>
      match name (some doc) with
      | (.error e, sd1) => (.error e, sd1)
      | (.ok nmv, sd1) =>
        match wordform_val sd1 with
        | .error e => (.error e, sd1)
        | .ok wfv =>
          match pronunciations_val sd1 with
          | .error e => (.error e, sd1)
          | .ok prons =>
            match property_global_val sd1 with
            | .error e => (.error e, sd1)
            | .ok prop =>
              match definition_full_val sd1 with
              | .error e => (.error e, sd1)
              | .ok defs =>
                match idioms_val sd1 with
                | .error e => (.error e, sd1)
                | .ok idms =>
                  match other_results_val sd1 with
                  | .error e => (.error e, sd1)
                  | .ok ors =>
                    let property := match prop with
                      | some s => if s = [] then none else some s
                      | none => none
                    let other_results := match ors with
                      | some l => if l = [] then none else some l
                      | none => none
                    if wfv = some (pystr "verb") then
                      match phrasal_verbs_val sd1 with
                      | .error e => (.error e, sd1)
                      | .ok pvs =>
                        let vfr := verb_forms sd1
                        match vfr.1 with
                        | .error e => (.error e, vfr.2)
                        | .ok vfv =>
                          (.ok (some ⟨idv, nmv, wfv, prons, property, defs, idms,
                            other_results, some pvs, some vfv⟩), vfr.2)
                    else
                      (.ok (some ⟨idv, nmv, wfv, prons, property, defs, idms,
                        other_results, none, none⟩), sd1)

end Word

/- Claim-side definitions and concrete fixtures. -/

/-- The final path segment of a link (the substring after the last `/`,
the whole string when there is none) — the claimed reading of
`extract_id`, stated independently of `split`. -/
def final_path_segment (link : Str) : Str :=
  (link.reverse.takeWhile (fun x => x ≠ '/')).reverse

/-- The on-page no-match condition of `__parse_word`, as the claim reads
it: the `#search-results > h1` heading exists, has a `.string`, and that
string starts with the marker. -/
def no_exact_marker (doc : Node) : Bool :=
  match (doc.select Word.search_results_h1_selector).head? with
  | none => false
  | some h1 =>
    match nodeString h1 with
    | none => false
    | some s => (pystr "No exact match found").isPrefixOf s

/-- No pronunciation markup matches at all. -/
def pron_markup_absent (doc : Node) : Bool :=
  (doc.select Word.br_pronounce_selector).isEmpty &&
  (doc.select Word.am_pronounce_selector).isEmpty &&
  (doc.select Word.br_pronounce_audio_ogg_selector).isEmpty &&
  (doc.select Word.am_pronounce_audio_ogg_selector).isEmpty &&
  (doc.select Word.br_pronounce_audio_mp3_selector).isEmpty &&
  (doc.select Word.am_pronounce_audio_mp3_selector).isEmpty

/-- The rightmost simple selector of a chain. -/
def lastSimple : Sel → SimpleSel
  | .simple s => s
  | .desc _ s => s
  | .child _ s => s

/-- Fixture: a minimal verb entry with one irregular-form row. -/
def docV : Node :=
  el "[document]" [] [
    el "div" [("id", "entryContent")] [
      el "div" [("class", "entry"), ("id", "try_1")] [
        el "div" [("class", "top-container")] [
          el "span" [("class", "headword")] [tx "try"],
          el "span" [("class", "pos")] [tx "verb"]
        ],
        el "table" [] [
          el "tr" [("class", "verb_form"), ("form", "root")] [
            el "td" [("class", "verb_form")] [
              el "span" [("class", "vf_prefix")] [tx "they "],
              tx " try "
            ]
          ]
        ]
      ]
    ]
  ]

/-- Fixture: the 200 response carrying `docV`. -/
def pageV : Word.Response := ⟨200, docV⟩

/-- Fixture: an entry whose header has no `.headword` region. -/
def docNoHead : Node :=
  el "[document]" [] [
    el "div" [("id", "entryContent")] [
      el "div" [("class", "entry"), ("id", "w_1")] []
    ]
  ]

/-- Fixture: the 200 response carrying `docNoHead`. -/
def pageNoHead : Word.Response := ⟨200, docNoHead⟩

/-- Fixture: a document with a British audio locator whose filename has no
regional marker, and no other pronunciation markup. -/
def docT : Node :=
  el "[document]" [] [
    el "div" [("geo", "br")] [
      el "div" [("data-src-ogg", "file.ogg")] []
    ]
  ]

/-- Fixture: a result list whose only item has no usable text (no direct
text runs in its span, no pos tag). -/
def orDd : Node :=
  el "dd" [] [
    el "ul" [] [
      el "li" [] [
        el "a" [("href", "https://x/definition/english/w1")] [
          el "span" [] [el "b" [] [tx "bold only"]]
        ]
      ]
    ]
  ]

/-- Fixture: the related-entries column around `orDd`. -/
def orColumn : Node :=
  el "div" [("id", "relatedentries")] [
    el "dl" [] [
      el "dt" [] [tx "All matches"],
      orDd
    ]
  ]

/-- Fixture: a document carrying the related-entries column `orColumn`. -/
def docOR : Node :=
  el "[document]" [] [
    el "div" [("id", "rightcolumn")] [orColumn]
  ]

/-- Fixture: a plain 200 page with no entry markup at all. -/
def pagePlain : Word.Response := ⟨200, el "html" [] [tx "hello"]⟩

/-- Fixture: a document carrying both `.phon` regions. -/
def docPhon : Node :=
  el "[document]" [] [
    el "div" [("geo", "br")] [el "span" [("class", "phon")] [tx "brP"]],
    el "div" [("geo", "n_am")] [el "span" [("class", "phon")] [tx "amP"]]
  ]

/-- Fixture: an entry whose senses sit under one namespace heading. -/
def docNS : Node :=
  el "[document]" [] [
    el "div" [("class", "senses_multiple")] [
      el "div" [("class", "shcut-g")] [
        el "h2" [("class", "shcut")] [tx "group1"],
        el "div" [("class", "sense")] [el "span" [("class", "def")] [tx "a def"]]
      ]
    ]
  ]

/-- Fixture: the `Entry` that `info` produces for `docV`. -/
def entryV : Word.Entry :=
  ⟨some (pystr "try_1"), some (pystr "try"), some (pystr "verb"),
   some [⟨none, none, none, none⟩, ⟨none, none, none, none⟩],
   none,
   some [⟨some (pystr "__GLOBAL__"), []⟩],
   [],
   none,
   some (some []),
   some (some [(pystr "root", (pystr "they ", pystr "try"))])⟩

/-- Fixture: `docV` after `info` ran (the `vf_prefix` span of the row was
replaced by an empty string by `verb_forms`). -/
def docV_after : Node :=
  el "[document]" [] [
    el "div" [("id", "entryContent")] [
      el "div" [("class", "entry"), ("id", "try_1")] [
        el "div" [("class", "top-container")] [
          el "span" [("class", "headword")] [tx "try"],
          el "span" [("class", "pos")] [tx "verb"]
        ],
        el "table" [] [
          el "tr" [("class", "verb_form"), ("form", "root")] [
            el "td" [("class", "verb_form")] [
              tx "",
              tx " try "
            ]
          ]
        ]
      ]
    ]
  ]

/- Helper lemmas (list utilities). -/

theorem getLastD_irrel (x : α) (xs : List α) (a b : α) :
    (x :: xs).getLastD a = (x :: xs).getLastD b := by
  rw [List.getLastD_cons, List.getLastD_cons]

theorem takeWhile_append_single_false (p : α → Bool) (x : α) (hx : p x = false)
    (l : List α) : List.takeWhile p (l ++ [x]) = List.takeWhile p l := by
  rw [List.takeWhile_append]
  split
  · next h =>
    have h2 : List.takeWhile p [x] = [] := by simp [List.takeWhile, hx]
    rw [h2, List.append_nil]
    exact ((List.takeWhile_prefix p).eq_of_length h).symm
  · rfl

theorem takeWhile_of_all (p : α → Bool) :
    ∀ l : List α, (∀ y ∈ l, p y = true) → List.takeWhile p l = l
  | [], _ => rfl
  | x :: xs, h => by
    have hx := h x (List.mem_cons_self x xs)
    simp [List.takeWhile_cons, hx,
      takeWhile_of_all p xs (fun y hy => h y (List.mem_cons_of_mem x hy))]

theorem takeWhile_append_of_exists (p : α → Bool) (l m : List α) (y : α)
    (hy : y ∈ l) (hpy : p y = false) :
    List.takeWhile p (l ++ m) = List.takeWhile p l := by
  rw [List.takeWhile_append]
  split
  · next h =>
    exfalso
    have he : List.takeWhile p l = l := (List.takeWhile_prefix p).eq_of_length h
    have := List.mem_takeWhile_imp (he ▸ hy)
    rw [hpy] at this
    exact Bool.false_ne_true this
  · rfl

/- Helper lemmas about `splitOnChar`. -/

theorem splitOnChar_ne_nil (c : Char) (l : Str) : splitOnChar c l ≠ [] := by
  cases l with
  | nil => simp [splitOnChar]
  | cons x xs =>
    simp only [splitOnChar]
    split
    · simp
    · split <;> simp

theorem splitOnChar_of_not_mem (c : Char) :
    ∀ l : Str, c ∉ l → splitOnChar c l = [l]
  | [], _ => rfl
  | x :: xs, h => by
    have hx : ¬ x = c := fun e => h (e ▸ List.mem_cons_self x xs)
    have hxs : c ∉ xs := fun m => h (List.mem_cons_of_mem _ m)
    simp only [splitOnChar, if_neg hx, splitOnChar_of_not_mem c xs hxs]

theorem two_le_splitOnChar_length (c : Char) :
    ∀ l : Str, c ∈ l → 2 ≤ (splitOnChar c l).length
  | [], h => absurd h (List.not_mem_nil c)
  | x :: xs, h => by
    by_cases hx : x = c
    · have h1 : splitOnChar c (x :: xs) = [] :: splitOnChar c xs := by
        simp [splitOnChar, hx]
      rw [h1]
      have := splitOnChar_ne_nil c xs
      have hpos : 0 < (splitOnChar c xs).length := List.length_pos.mpr this
      simp only [List.length_cons]
      omega
    · have hc : c ∈ xs := by
        cases List.mem_cons.mp h with
        | inl e => exact absurd e.symm hx
        | inr m => exact m
      have ih := two_le_splitOnChar_length c xs hc
      cases hsp : splitOnChar c xs with
      | nil => exact absurd hsp (splitOnChar_ne_nil c xs)
      | cons r rs =>
        have h1 : splitOnChar c (x :: xs) = (x :: r) :: rs := by
          simp only [splitOnChar, if_neg hx, hsp]
        rw [h1]
        rw [hsp] at ih
        simpa using ih

theorem splitOnChar_getLastD (c : Char) :
    ∀ l : Str, (splitOnChar c l).getLastD [] = (l.reverse.takeWhile (fun x => x ≠ c)).reverse
  | [] => rfl
  | x :: xs => by
    have ih := splitOnChar_getLastD c xs
    by_cases hx : x = c
    · subst hx
      have h1 : splitOnChar x (x :: xs) = [] :: splitOnChar x xs := by
        simp [splitOnChar]
      rw [h1, List.getLastD_cons, ih, List.reverse_cons,
        takeWhile_append_single_false _ x (by simp) _]
    · by_cases hmem : c ∈ xs
      · cases hsp : splitOnChar c xs with
        | nil => exact absurd hsp (splitOnChar_ne_nil c xs)
        | cons r rs =>
          have h1 : splitOnChar c (x :: xs) = (x :: r) :: rs := by
            simp only [splitOnChar, if_neg hx, hsp]
          rw [h1, List.reverse_cons]
          have hlen := two_le_splitOnChar_length c xs hmem
          rw [hsp] at hlen
          have hrs : rs ≠ [] := by
            intro e
            subst e
            simp at hlen
          have lhs1 : ((x :: r) :: rs).getLastD [] = (r :: rs).getLastD [] := by
            rw [List.getLastD_cons, List.getLastD_cons]
            cases rs with
            | nil => exact absurd rfl hrs
            | cons z zs => exact getLastD_irrel z zs (x :: r) r
          rw [lhs1, ← hsp, ih]
          have hmr : c ∈ xs.reverse := List.mem_reverse.mpr hmem
          rw [takeWhile_append_of_exists _ _ _ c hmr (by simp)]
      · have hs : splitOnChar c xs = [xs] := splitOnChar_of_not_mem c xs hmem
        have h1 : splitOnChar c (x :: xs) = [x :: xs] := by
          simp only [splitOnChar, if_neg hx, hs]
        rw [h1, List.reverse_cons]
        have hall : ∀ y ∈ xs.reverse ++ [x], (fun z => decide (z ≠ c)) y = true := by
          intro y hy
          rcases List.mem_append.mp hy with h1 | h2
          · have hyx : y ∈ xs := List.mem_reverse.mp h1
            simp only [decide_eq_true_eq]
            exact fun e => hmem (e ▸ hyx)
          · have hyx : y = x := by simpa using h2
            simp only [decide_eq_true_eq]
            exact hyx ▸ hx
        rw [takeWhile_of_all _ _ hall]
        simp [List.getLastD_cons]

/-- C9: the id extracted by `extract_id` from a link equals the final path
segment of that link (the substring after the last `/`, the whole string
when there is no `/`), for every link string. -/
theorem C9_extract_id_is_final_segment (link : Str) :
    Word.extract_id link = final_path_segment link := by
  unfold Word.extract_id final_path_segment
  exact splitOnChar_getLastD '/' link

/- Selector machinery: every selected node is an element satisfying the
rightmost simple selector, hence carries every attribute that selector
requires. -/

theorem matchesSimple_of_matchesSel :
    ∀ (sel : Sel) (t : Str) (a : List (Str × Str)) (anc : List ElemInfo),
      matchesSel sel t a anc = true → matchesSimple (lastSimple sel) t a = true := by
  intro sel t a anc h
  cases sel with
  | simple ss => simpa [matchesSel, lastSimple] using h
  | desc p ss =>
    cases anc with
    | nil => simp [matchesSel] at h
    | cons hd tl =>
      rw [matchesSel] at h
      exact (Bool.and_eq_true_iff.mp h).1
  | child p ss =>
    cases anc with
    | nil => simp [matchesSel] at h
    | cons hd tl =>
      rw [matchesSel] at h
      exact (Bool.and_eq_true_iff.mp h).1

mutual

theorem mem_selN_match : ∀ (sel : Sel) (anc : List ElemInfo) (n x : Node),
    x ∈ selN sel anc n →
    ∃ t a cs, x = Node.elem t a cs ∧ matchesSimple (lastSimple sel) t a = true
  | sel, anc, .text s, x => by
    intro hx
    simp [selN] at hx
  | sel, anc, .elem t a cs, x => by
    intro hx
    rw [selN] at hx
    rcases List.mem_append.mp hx with h1 | h2
    · by_cases hm : matchesSel sel t a anc = true
      · rw [if_pos hm] at h1
        have hx1 : x = Node.elem t a cs := by simpa using h1
        exact ⟨t, a, cs, hx1, matchesSimple_of_matchesSel sel t a anc hm⟩
      · rw [if_neg hm] at h1
        simp at h1
    · exact mem_selL_match sel ((t, a) :: anc) cs x h2

theorem mem_selL_match : ∀ (sel : Sel) (anc : List ElemInfo) (ns : List Node) (x : Node),
    x ∈ selL sel anc ns →
    ∃ t a cs, x = Node.elem t a cs ∧ matchesSimple (lastSimple sel) t a = true
  | sel, anc, [], x => by
    intro hx
    simp [selL] at hx
  | sel, anc, n :: ns, x => by
    intro hx
    rw [selL] at hx
    rcases List.mem_append.mp hx with h1 | h2
    · exact mem_selN_match sel anc n x h1
    · exact mem_selL_match sel anc ns x h2

end

theorem mem_select_match (root : Node) (sel : Sel) (x : Node)
    (hx : x ∈ root.select sel) :
    ∃ t a cs, x = Node.elem t a cs ∧ matchesSimple (lastSimple sel) t a = true := by
  cases root with
  | text s => simp [Node.select] at hx
  | elem t a cs => exact mem_selL_match sel [(t, a)] cs x hx

/-- A node selected by a chain whose rightmost simple selector demands the
presence of attribute `k` really carries `k`. -/
theorem getAttrE_ok_of_select (root : Node) (sel : Sel) (k : Str) (x : Node)
    (hx : x ∈ root.select sel)
    (hk : (k, (none : Option Str)) ∈ (lastSimple sel).attrConds) :
    ∃ v, getAttrE x k = .ok v := by
  obtain ⟨t, a, cs, he, hm⟩ := mem_select_match root sel x hx
  subst he
  rw [matchesSimple] at hm
  have h4 := (Bool.and_eq_true_iff.mp hm).2
  have hall := List.all_eq_true.mp h4 (k, none) hk
  simp only at hall
  cases hv : lookupAttr a k with
  | none => rw [hv] at hall; simp at hall
  | some v => exact ⟨v, by simp [getAttrE, hv]⟩

theorem head_mem {l : List α} {x : α} (h : l.head? = some x) : x ∈ l := by
  cases l with
  | nil => simp at h
  | cons y ys =>
    have : y = x := by simpa using h
    exact this ▸ List.mem_cons_self y ys

/-- The second `try` block of `pronunciations` cannot raise anything but
the caught `IndexError`: every tag matched by an audio selector carries
the corresponding attribute. -/
theorem pron_audio_ok (doc : Node) : ∃ q, Word.pron_audio doc = .ok q := by
  rw [Word.pron_audio]
  cases h1 : (doc.select Word.br_pronounce_audio_ogg_selector).head? with
  | none => exact ⟨_, rfl⟩
  | some t1 =>
    obtain ⟨v1, hv1⟩ := getAttrE_ok_of_select doc Word.br_pronounce_audio_ogg_selector
      (pystr "data-src-ogg") t1 (head_mem h1) (by
      simp [Word.br_pronounce_audio_ogg_selector, lastSimple, sAttr, pystr])
    dsimp only
    rw [hv1]
    dsimp only
    cases h2 : (doc.select Word.am_pronounce_audio_ogg_selector).head? with
    | none => exact ⟨_, rfl⟩
    | some t2 =>
      obtain ⟨v2, hv2⟩ := getAttrE_ok_of_select doc Word.am_pronounce_audio_ogg_selector
        (pystr "data-src-ogg") t2 (head_mem h2) (by
        simp [Word.am_pronounce_audio_ogg_selector, lastSimple, sAttr, pystr])
      dsimp only
      rw [hv2]
      dsimp only
      cases h3 : (doc.select Word.br_pronounce_audio_mp3_selector).head? with
      | none => exact ⟨_, rfl⟩
      | some t3 =>
        obtain ⟨v3, hv3⟩ := getAttrE_ok_of_select doc Word.br_pronounce_audio_mp3_selector
          (pystr "data-src-mp3") t3 (head_mem h3) (by
          simp [Word.br_pronounce_audio_mp3_selector, lastSimple, sAttr, pystr])
        dsimp only
        rw [hv3]
        dsimp only
        cases h4 : (doc.select Word.am_pronounce_audio_mp3_selector).head? with
        | none => exact ⟨_, rfl⟩
        | some t4 =>
          obtain ⟨v4, hv4⟩ := getAttrE_ok_of_select doc Word.am_pronounce_audio_mp3_selector
            (pystr "data-src-mp3") t4 (head_mem h4) (by
            simp [Word.am_pronounce_audio_mp3_selector, lastSimple, sAttr, pystr])
          dsimp only
          rw [hv4]
          dsimp only
          exact ⟨_, rfl⟩

/-- C5 counterexample: a filename containing both markers contains `_us_`
yet is mapped to `BrE`, not `NAmE` — the `_gb_` test runs first. -/
theorem C5_counterexample_both_markers :
    strIn (pystr "_us_") (pystr "x_gb__us_y") = true ∧
    Word.get_prefix_from_filename (pystr "x_gb__us_y") ≠ some (pystr "NAmE") :=
  ⟨by decide, by decide⟩

/-- C5 (amended): a filename containing `_gb_` infers `BrE`; one
containing `_us_` but not `_gb_` infers `NAmE`; one containing neither
infers nothing; and when both phonetic texts were found the prefixes stay
as the phonetic-text path set them (`BrE` and `nAmE`), with no filename
inference. -/
theorem C5_amended_filename_inference :
    (∀ f : Str, strIn (pystr "_gb_") f = true →
      Word.get_prefix_from_filename f = some (pystr "BrE")) ∧
    (∀ f : Str, strIn (pystr "_gb_") f = false → strIn (pystr "_us_") f = true →
      Word.get_prefix_from_filename f = some (pystr "NAmE")) ∧
    (∀ f : Str, strIn (pystr "_gb_") f = false → strIn (pystr "_us_") f = false →
      Word.get_prefix_from_filename f = none) ∧
    (∀ (doc : Node) (p : Str × Str), Word.pron_ipa doc = some p →
      ∃ o1 m1 o2 m2, Word.pronunciations_val (some doc) =
        .ok (some [⟨some (pystr "BrE"), some p.1, o1, m1⟩,
          ⟨some (pystr "nAmE"), some p.2, o2, m2⟩])) := by
  refine ⟨?_, ?_, ?_, ?_⟩
  · intro f h
    simp [Word.get_prefix_from_filename, h]
  · intro f h1 h2
    simp [Word.get_prefix_from_filename, h1, h2]
  · intro f h1 h2
    simp [Word.get_prefix_from_filename, h1, h2]
  · intro doc p hp
    obtain ⟨q, hq⟩ := pron_audio_ok doc
    refine ⟨q.1, q.2.2.1, q.2.1, q.2.2.2, ?_⟩
    rw [Word.pronunciations_val]
    rw [hp, hq]
    simp [Word.pron_infer, Bind.bind, Except.bind]

/-- C5 witness: the amended statement applied at a `_us_`-only filename
and at a document carrying both phonetic texts. -/
theorem C5_amended_witness :
    Word.get_prefix_from_filename (pystr "x_us_y.mp3") = some (pystr "NAmE") ∧
    (∃ o1 m1 o2 m2, Word.pronunciations_val (some docPhon) =
      .ok (some [⟨some (pystr "BrE"), some (pystr "brP"), o1, m1⟩,
        ⟨some (pystr "nAmE"), some (pystr "amP"), o2, m2⟩])) := by
  constructor
  · exact C5_amended_filename_inference.2.1 (pystr "x_us_y.mp3") (by decide) (by decide)
  · exact C5_amended_filename_inference.2.2.2 docPhon (pystr "brP", pystr "amP") (by decide)

/-- C1: `__parse_word` signals `WordNotFound` exactly on a 404 status or
when the search-results heading string starts with the no-match marker;
for every other response the parsed tree is stored. -/
theorem C1_parse_word_not_found_iff (page : Word.Response) (sd : Word.SoupData) :
    ((Word.parse_word page sd).1 = .error .wordNotFound ↔
      (page.status_code = 404 ∨ no_exact_marker page.content = true)) ∧
    (page.status_code ≠ 404 → no_exact_marker page.content = false →
      (Word.parse_word page sd).2 = some page.content) := by
  by_cases h404 : page.status_code = 404
  · simp [Word.parse_word, no_exact_marker, h404]
  · cases hh : (page.content.select Word.search_results_h1_selector).head? with
    | none => simp [Word.parse_word, no_exact_marker, h404, hh]
    | some h1 =>
      cases hs : nodeString h1 with
      | none => simp [Word.parse_word, no_exact_marker, h404, hh, hs]
      | some s =>
        by_cases hpre : (pystr "No exact match found").isPrefixOf s = true
        · simp [Word.parse_word, no_exact_marker, h404, hh, hs, hpre]
        · simp only [Bool.not_eq_true] at hpre
          simp [Word.parse_word, no_exact_marker, h404, hh, hs, hpre]

/-- C1 witness: a 200 page without the marker is stored and does not
signal `WordNotFound`. -/
theorem C1_witness :
    (Word.parse_word pagePlain none).1 ≠ .error .wordNotFound ∧
    (Word.parse_word pagePlain none).2 = some pagePlain.content := by
  have h := C1_parse_word_not_found_iff pagePlain none
  constructor
  · intro hc
    rcases h.1.mp hc with h4 | hm
    · exact absurd h4 (by decide)
    · exact absurd hm (by decide)
  · exact h.2 (by decide) (by decide)

/-- C2 counterexample: `idioms` called before any fetch dereferences the
absent document and raises (`AttributeError`), instead of returning an
absent result. -/
theorem C2_counterexample_idioms_before_fetch :
    (Word.idioms none).1 = .error .attributeError := rfl

/-- C2 (amended): before any fetch, every extraction operation of the
public interface returns an absent result — except `idioms` and
`otherResults`, which raise `AttributeError` because their `try` blocks
do not guard (or do not exist for) the `None` document. -/
theorem C2_amended_before_fetch :
    (Word.id none).1 = .ok none ∧
    (Word.name none).1 = .ok none ∧
    (Word.wordform none).1 = .ok none ∧
    (Word.property_global none).1 = .ok none ∧
    (Word.pronunciations none).1 = .ok none ∧
    (Word.references none).1 = .ok none ∧
    (Word.definition_full none).1 = .ok none ∧
    (Word.phrasal_verbs none).1 = .ok none ∧
    (Word.verb_forms none).1 = .ok none ∧
    (Word.info none).1 = .ok none ∧
    (Word.idioms none).1 = .error .attributeError ∧
    (Word.other_results none).1 = .error .attributeError :=
  ⟨rfl, rfl, rfl, rfl, rfl, rfl, rfl, rfl, rfl, rfl, rfl, rfl⟩

/- Totality of `verb_forms`: the loop body can only fail with the caught
`IndexError`, because selected rows always carry the `form` attribute. -/

theorem vf_row_err_index (row : Node)
    (hf : ∃ v, getAttrE row (pystr "form") = .ok v) :
    (∃ v, Word.vf_row row = .ok v) ∨ Word.vf_row row = .error .indexError := by
  obtain ⟨v, hv⟩ := hf
  cases h1 : row.select Word.verb_forms_selector_td with
  | nil =>
    right
    simp [Word.vf_row, hv, h1, idx0, Bind.bind, Except.bind]
  | cons a as =>
    cases h2 : a.select Word.vf_prefix_selector with
    | nil =>
      right
      simp [Word.vf_row, hv, h1, h2, idx0, Bind.bind, Except.bind]
    | cons b bs =>
      left
      exact ⟨(v, (get_text b,
        stripW (get_text (a.rewriteFirstK Word.vf_prefix_selector (fun _ => Node.text []) 1)))),
        by simp [Word.vf_row, hv, h1, h2, idx0, Bind.bind, Except.bind]⟩

theorem vf_go_ok : ∀ (rows : List Node) (acc : Word.VFMap) (k : Nat),
    (∀ r ∈ rows, ∃ v, getAttrE r (pystr "form") = .ok v) →
    ∃ v, (Word.vf_go rows acc k).1 = .ok v
  | [], acc, _, _ => ⟨some acc, rfl⟩
  | row :: rest, acc, k, h => by
    rcases vf_row_err_index row (h row (List.mem_cons_self _ _)) with ⟨v, hv⟩ | hv
    · obtain ⟨form, ent⟩ := v
      rw [Word.vf_go, hv]
      exact vf_go_ok rest (Word.updateAssoc acc form ent) (k + 1)
        (fun r hr => h r (List.mem_cons_of_mem _ hr))
    · rw [Word.vf_go, hv]
      exact ⟨none, rfl⟩

theorem verb_forms_ok (sd : Word.SoupData) : ∃ v, (Word.verb_forms sd).1 = .ok v := by
  cases sd with
  | none => exact ⟨none, rfl⟩
  | some doc =>
    rw [Word.verb_forms]
    exact vf_go_ok (doc.select Word.verb_forms_selector) [] 0
      (fun r hr => getAttrE_ok_of_select doc Word.verb_forms_selector (pystr "form") r hr
        (by simp [Word.verb_forms_selector, lastSimple, sTagClassAttr, pystr]))

/-- C3 counterexample: after a successful fetch of an entry whose header
has no `.headword` region, `name` raises (`IndexError` from the unguarded
`[0]`) instead of returning an absent value. -/
theorem C3_counterexample_name_raises :
    (Word.get pageNoHead none).1 = .ok () ∧
    (Word.name (Word.get pageNoHead none).2).1 = .error .indexError :=
  ⟨rfl, rfl⟩

/-- C3 (amended): of the exposed read operations, exactly `wordform`,
`propertyGlobal` and `verbForms` are total over every document shape
(their guarded lookups can only fail with the caught `IndexError`); the
others can raise on documents missing their target regions. -/
theorem C3_amended_total_ops (sd : Word.SoupData) :
    (∃ v, (Word.wordform sd).1 = .ok v) ∧
    (∃ v, (Word.property_global sd).1 = .ok v) ∧
    (∃ v, (Word.verb_forms sd).1 = .ok v) := by
  refine ⟨?_, ?_, verb_forms_ok sd⟩
  · cases sd with
    | none => exact ⟨none, rfl⟩
    | some doc =>
      cases hsel : doc.select Word.wordform_selector with
      | nil =>
        exact ⟨none, by simp [Word.wordform, Word.wordform_val, hsel, catchIdx, idx0,
          Bind.bind, Except.bind]⟩
      | cons t ts =>
        exact ⟨some (get_text t), by simp [Word.wordform, Word.wordform_val, hsel,
          catchIdx, idx0, Bind.bind, Except.bind]⟩
  · cases sd with
    | none => exact ⟨none, rfl⟩
    | some doc =>
      cases hsel : doc.select Word.property_global_selector with
      | nil =>
        exact ⟨none, by simp [Word.property_global, Word.property_global_val, hsel,
          catchIdx, idx0, Bind.bind, Except.bind]⟩
      | cons t ts =>
        exact ⟨some (get_text t), by simp [Word.property_global, Word.property_global_val,
          hsel, catchIdx, idx0, Bind.bind, Except.bind]⟩

/-- C10 counterexample: on a document carrying only a British ogg locator
whose filename has no regional marker, `pronunciations` raises a
`TypeError` (filename inference falls through to the `None` mp3 entry),
so no two-record list is returned. -/
theorem C10_counterexample_pron_raises :
    Word.pronunciations_val (some docT) = .error .typeError := rfl

/-- C10 (amended): whenever `pronunciations` returns on a fetched
document, the result is exactly a two-record list, the first record built
from the `[geo=br]` region and the second from `[geo=n_am]` (each record
has exactly the four fields of `PronRec`, each possibly absent); when no
pronunciation markup matches at all, both records are entirely empty. -/
theorem C10_amended_pron_shape (doc : Node) :
    (∀ v, Word.pronunciations_val (some doc) = .ok v →
      ∃ b a, v = some [b, a] ∧
        b.ipa = (Word.pron_ipa doc).map Prod.fst ∧
        a.ipa = (Word.pron_ipa doc).map Prod.snd) ∧
    (pron_markup_absent doc = true →
      Word.pronunciations_val (some doc) =
        .ok (some [⟨none, none, none, none⟩, ⟨none, none, none, none⟩])) := by
  constructor
  · intro v hv
    rw [Word.pronunciations_val] at hv
    cases haud : Word.pron_audio doc with
    | error e =>
      rw [haud] at hv
      simp [Bind.bind, Except.bind] at hv
    | ok q =>
      rw [haud] at hv
      simp only [Bind.bind, Except.bind] at hv
      cases hb : Word.pron_infer
          (if (Word.pron_ipa doc).isSome then some (pystr "BrE") else none)
          q.1 q.2.2.1 with
      | error e => rw [hb] at hv; simp at hv
      | ok bp =>
        rw [hb] at hv
        simp only at hv
        cases ha : Word.pron_infer
            (if (Word.pron_ipa doc).isSome then some (pystr "nAmE") else none)
            q.2.1 q.2.2.2 with
        | error e => rw [ha] at hv; simp at hv
        | ok ap =>
          rw [ha] at hv
          simp only at hv
          have hv' := hv.symm
          injection hv' with hv2
          subst hv2
          exact ⟨_, _, rfl, rfl, rfl⟩
  · intro h
    rw [pron_markup_absent] at h
    simp only [Bool.and_eq_true, List.isEmpty_iff] at h
    obtain ⟨⟨⟨⟨⟨e1, e2⟩, e3⟩, e4⟩, e5⟩, e6⟩ := h
    simp [Word.pronunciations_val, Word.pron_ipa, Word.pron_audio, Word.pron_infer,
      e1, e2, e3, e4, e5, e6, Bind.bind, Except.bind, truthyS]

/-- C10 witness: the amended statement applied to the empty verb fixture,
whose pronunciation markup is entirely absent. -/
theorem C10_amended_witness :
    Word.pronunciations_val (some docV) =
      .ok (some [⟨none, none, none, none⟩, ⟨none, none, none, none⟩]) :=
  (C10_amended_pron_shape docV).2 (by decide)

/-- C4: whenever `info` returns an `Entry`, the two verb-only keys are
present exactly when the wordform is `verb`, and the `property` /
`other_results` keys are absent exactly when the extracted value (read
after the destructive `name` call) was falsy (absent or empty). -/
theorem C4_info_key_presence (doc : Node) (e : Word.Entry) (sd2 : Word.SoupData)
    (h : Word.info (some doc) = (.ok (some e), sd2)) :
    (e.phrasal_verbs.isSome ↔ e.wordform = some (pystr "verb")) ∧
    (e.verb_forms.isSome ↔ e.wordform = some (pystr "verb")) ∧
    (e.property = none ↔
      (Word.property_global_val (Word.name (some doc)).2 = .ok none ∨
       Word.property_global_val (Word.name (some doc)).2 = .ok (some []))) ∧
    (e.other_results = none ↔
      (Word.other_results_val (Word.name (some doc)).2 = .ok none ∨
       Word.other_results_val (Word.name (some doc)).2 = .ok (some []))) := by
  rw [Word.info] at h
  cases hid : Word.id_val (some doc) with
  | error e1 => rw [hid] at h; dsimp only at h; simp at h
  | ok idv =>
  rw [hid] at h
  dsimp only at h
  cases hnm : Word.name (some doc) with
  | mk r1 sd1 =>
  rw [hnm] at h
  dsimp only
  cases r1 with
  | error e1 => dsimp only at h; simp at h
  | ok nmv =>
  dsimp only at h
  cases hwf : Word.wordform_val sd1 with
  | error e1 => rw [hwf] at h; dsimp only at h; simp at h
  | ok wfv =>
  rw [hwf] at h
  dsimp only at h
  cases hprons : Word.pronunciations_val sd1 with
  | error e1 => rw [hprons] at h; dsimp only at h; simp at h
  | ok prons =>
  rw [hprons] at h
  dsimp only at h
  cases hprop : Word.property_global_val sd1 with
  | error e1 => rw [hprop] at h; dsimp only at h; simp at h
  | ok prop =>
  rw [hprop] at h
  dsimp only at h
  cases hdefs : Word.definition_full_val sd1 with
  | error e1 => rw [hdefs] at h; dsimp only at h; simp at h
  | ok defs =>
  rw [hdefs] at h
  dsimp only at h
  cases hidms : Word.idioms_val sd1 with
  | error e1 => rw [hidms] at h; dsimp only at h; simp at h
  | ok idms =>
  rw [hidms] at h
  dsimp only at h
  cases hors : Word.other_results_val sd1 with
  | error e1 => rw [hors] at h; dsimp only at h; simp at h
  | ok ors =>
  rw [hors] at h
  dsimp only at h
  by_cases hv : wfv = some (pystr "verb")
  · rw [if_pos hv] at h
    cases hpvs : Word.phrasal_verbs_val sd1 with
    | error e1 => rw [hpvs] at h; dsimp only at h; simp at h
    | ok pvs =>
    rw [hpvs] at h
    dsimp only at h
    cases hvf : (Word.verb_forms sd1).1 with
    | error e1 => rw [hvf] at h; dsimp only at h; simp at h
    | ok vfv =>
    rw [hvf] at h
    dsimp only at h
    simp only [Prod.mk.injEq, Except.ok.injEq, Option.some.injEq] at h
    obtain ⟨he, hsd⟩ := h
    subst he
    refine ⟨by simp [hv], by simp [hv], ?_, ?_⟩
    · simp only [hprop, Except.ok.injEq]
      cases prop with
      | none => simp
      | some s =>
        by_cases hs : s = []
        · subst hs; simp
        · simp [hs]
    · simp only [hors, Except.ok.injEq]
      cases ors with
      | none => simp
      | some l =>
        by_cases hl : l = []
        · subst hl; simp
        · simp [hl]
  · rw [if_neg hv] at h
    simp only [Prod.mk.injEq, Except.ok.injEq, Option.some.injEq] at h
    obtain ⟨he, hsd⟩ := h
    subst he
    refine ⟨by simp [hv], by simp [hv], ?_, ?_⟩
    · simp only [hprop, Except.ok.injEq]
      cases prop with
      | none => simp
      | some s =>
        by_cases hs : s = []
        · subst hs; simp
        · simp [hs]
    · simp only [hors, Except.ok.injEq]
      cases ors with
      | none => simp
      | some l =>
        by_cases hl : l = []
        · subst hl; simp
        · simp [hl]

/-- C4 witness: the key-presence facts instantiated on the concrete verb
fixture. -/
theorem C4_witness_verb_fixture :
    (entryV.phrasal_verbs.isSome ↔ entryV.wordform = some (pystr "verb")) ∧
    (entryV.verb_forms.isSome ↔ entryV.wordform = some (pystr "verb")) ∧
    (entryV.property = none ↔
      (Word.property_global_val (Word.name (some docV)).2 = .ok none ∨
       Word.property_global_val (Word.name (some docV)).2 = .ok (some []))) ∧
    (entryV.other_results = none ↔
      (Word.other_results_val (Word.name (some docV)).2 = .ok none ∨
       Word.other_results_val (Word.name (some docV)).2 = .ok (some []))) :=
  C4_info_key_presence docV entryV (some docV_after) (by rfl)

/- Helpers about `Except` and `mapM`. -/

theorem except_map_eq_bind (x : Except PyErr α) (f : α → β) :
    x.map f = x.bind (fun a => .ok (f a)) := by
  cases x <;> rfl

theorem mapM_ok_length (f : α → Except PyErr β) :
    ∀ (l : List α) (ys : List β), l.mapM f = .ok ys → ys.length = l.length
  | [], ys, h => by
    simp only [List.mapM_nil, pure, Except.pure, Except.ok.injEq] at h
    simp [← h]
  | x :: xs, ys, h => by
    rw [List.mapM_cons] at h
    cases hfx : f x with
    | error e =>
      rw [hfx] at h
      simp [Bind.bind, Except.bind, pure, Except.pure] at h
    | ok y =>
      rw [hfx] at h
      cases hmx : xs.mapM f with
      | error e =>
        rw [hmx] at h
        simp [Bind.bind, Except.bind, pure, Except.pure] at h
      | ok ys' =>
        rw [hmx] at h
        simp only [Bind.bind, Except.bind, pure, Except.pure, Except.ok.injEq] at h
        subst h
        simp [mapM_ok_length f xs ys' hmx]

theorem mapM_ok_mem (f : α → Except PyErr β) :
    ∀ (l : List α) (ys : List β), l.mapM f = .ok ys →
      ∀ y ∈ ys, ∃ x ∈ l, f x = .ok y
  | [], ys, h => by
    simp only [List.mapM_nil, pure, Except.pure, Except.ok.injEq] at h
    subst h
    intro y hy
    simp at hy
  | x :: xs, ys, h => by
    rw [List.mapM_cons] at h
    cases hfx : f x with
    | error e =>
      rw [hfx] at h
      simp [Bind.bind, Except.bind, pure, Except.pure] at h
    | ok y0 =>
      rw [hfx] at h
      cases hmx : xs.mapM f with
      | error e =>
        rw [hmx] at h
        simp [Bind.bind, Except.bind, pure, Except.pure] at h
      | ok ys' =>
        rw [hmx] at h
        simp only [Bind.bind, Except.bind, pure, Except.pure, Except.ok.injEq] at h
        subst h
        intro y hy
        rcases List.mem_cons.mp hy with h1 | h2
        · exact ⟨x, List.mem_cons_self x xs, h1 ▸ hfx⟩
        · obtain ⟨x', hx', hfx'⟩ := mapM_ok_mem f xs ys' hmx y h2
          exact ⟨x', List.mem_cons_of_mem x hx', hfx'⟩

/-- C7: `definition_full` falls back to a single sentinel-labelled group
gathering the senses of the multi-sense container (or, only when that
matches nothing, of the single-sense container) exactly when no
namespace-group element matches; otherwise it yields one group per
namespace element, in document order, via the per-group parser. -/
theorem C7_definition_full_grouping (doc : Node) :
    (doc.select Word.namespaces_selector = [] →
      Word.definition_full_val (some doc) =
        (((if (doc.select Word.definition_body_selector).length = 0
            then doc.select Word.definition_body_selector_single
            else doc.select Word.definition_body_selector).flatMap
              (fun b => b.select Word.sense_selector)).mapM
            (Word.parse_definition_core (some doc))).map
          (fun defs => some [⟨some (pystr "__GLOBAL__"), defs⟩])) ∧
    (doc.select Word.namespaces_selector ≠ [] →
      Word.definition_full_val (some doc) =
        ((doc.select Word.namespaces_selector).mapM
          (Word.group_of_namespace_tag (some doc))).map some) := by
  constructor
  · intro h
    rw [Word.definition_full_val, h]
    simp only [List.mapM_nil, pure, Except.pure, Bind.bind, Except.bind,
      List.length_nil, if_pos]
    rw [except_map_eq_bind]
    rfl
  · intro h
    rw [Word.definition_full_val]
    cases hmap : (doc.select Word.namespaces_selector).mapM
        (Word.group_of_namespace_tag (some doc)) with
    | error e =>
      simp [Bind.bind, Except.bind, Except.map]
    | ok info =>
      simp only [Bind.bind, Except.bind]
      have hlen := mapM_ok_length _ _ _ hmap
      have hne : info.length ≠ 0 := by
        rw [hlen]
        exact fun e => h (List.length_eq_zero.mp e)
      rw [if_neg hne]
      simp [Except.map]

/-- C7 witness: both branches instantiated — the sentinel fallback on the
verb fixture (no namespace groups), and the per-group path on the
namespace fixture. -/
theorem C7_witness_both_branches :
    Word.definition_full_val (some docV) =
      (((if (docV.select Word.definition_body_selector).length = 0
          then docV.select Word.definition_body_selector_single
          else docV.select Word.definition_body_selector).flatMap
            (fun b => b.select Word.sense_selector)).mapM
          (Word.parse_definition_core (some docV))).map
        (fun defs => some [⟨some (pystr "__GLOBAL__"), defs⟩]) ∧
    Word.definition_full_val (some docNS) =
      ((docNS.select Word.namespaces_selector).mapM
        (Word.group_of_namespace_tag (some docNS))).map some :=
  ⟨(C7_definition_full_grouping docV).1 (by rfl),
   (C7_definition_full_grouping docNS).2 (by
    intro he
    have hl : (docNS.select Word.namespaces_selector).length = 0 := by
      rw [he]
      rfl
    exact absurd hl (by decide))⟩

/-- Every name list built by the `other_results` item loop ends with the
appended wordform entry, hence is never empty. -/
theorem or_names_ne_nil (li : Node) (l : List Str)
    (h : Word.or_names_of_li li = .ok l) : l ≠ [] := by
  rw [Word.or_names_of_li] at h
  cases hs : li.select Word.span_selector with
  | nil =>
    rw [hs] at h
    simp [idx0, Bind.bind, Except.bind] at h
  | cons sp sps =>
    rw [hs] at h
    simp only [idx0, Bind.bind, Except.bind, Except.ok.injEq] at h
    subst h
    simp

/-- C8 counterexample: the whitespace-only item is retained (with an
empty display name), not dropped. -/
theorem C8_counterexample_whitespace_item_kept :
    Word.other_results_val (some docOR) =
      .ok (some [⟨pystr "All matches", [⟨[], pystr "w1", some []⟩]⟩]) := rfl

/-- C8 (amended): `other_results` yields one single-key group per
heading/list pairing in document order (each item parsed by the
`or_group` routine: non-tag text runs joined by `' '`, id from the link
target, trailing part-of-speech entry); the `filter` step drops nothing —
items reducing to only whitespace are retained with an empty name,
because every item list carries the appended wordform entry. -/
theorem C8_amended_other_results (doc : Node) :
    (∀ r rs, doc.select Word.other_results_selector = r :: rs →
      Word.other_results_val (some doc) =
        (((r.select Word.dt_selector).zip (r.select Word.dd_selector)).mapM
          (fun p => Word.or_group p.1 p.2)).map some) ∧
    (∀ (dd : Node) (items : List (List Str)),
      (dd.select Word.li_selector).mapM Word.or_names_of_li = .ok items →
      items.filter (fun l => l ≠ []) = items) := by
  constructor
  · intro r rs h
    rw [Word.other_results_val, h]
    dsimp only [List.head?]
    rw [except_map_eq_bind]
    rfl
  · intro dd items h
    rw [List.filter_eq_self]
    intro a ha
    obtain ⟨li, _, hli⟩ := mapM_ok_mem _ _ _ h a ha
    simpa using or_names_ne_nil li a hli

/-- C8 witness: the amended statement instantiated on the whitespace-item
fixture. -/
theorem C8_amended_witness :
    Word.other_results_val (some docOR) =
      (((orColumn.select Word.dt_selector).zip (orColumn.select Word.dd_selector)).mapM
        (fun p => Word.or_group p.1 p.2)).map some ∧
    ([[([] : Str)]] : List (List Str)).filter (fun l => l ≠ []) = [[([] : Str)]] :=
  ⟨(C8_amended_other_results docOR).1 orColumn [] (by rfl),
   (C8_amended_other_results docOR).2 orDd [[([] : Str)]] (by rfl)⟩

/- Rewrite-machinery lemmas for the idempotence analysis: rewriting zero
matches is the identity, rewriting where nothing matches is the identity,
and rewriting the first match leaves it as the head of a fresh selection
(for rewriters that preserve the tag and the attributes). -/

mutual

theorem rwN_zero : ∀ (sel : Sel) (f : Node → Node) (anc : List ElemInfo) (n : Node),
    rwN sel f anc n 0 = (n, 0)
  | sel, f, anc, .text s => by rw [rwN]
  | sel, f, anc, .elem t a cs => by
    rw [rwN]
    simp

theorem rwL_zero : ∀ (sel : Sel) (f : Node → Node) (anc : List ElemInfo) (ns : List Node),
    rwL sel f anc ns 0 = (ns, 0)
  | sel, f, anc, [] => by rw [rwL]
  | sel, f, anc, n :: ns => by
    rw [rwL]
    simp [rwN_zero sel f anc n, rwL_zero sel f anc ns]

end

mutual

theorem rwN_of_selN_nil :
    ∀ (sel : Sel) (f : Node → Node) (anc : List ElemInfo) (n : Node) (k : Nat),
      selN sel anc n = [] → rwN sel f anc n k = (n, k)
  | sel, f, anc, .text s, k, _ => by rw [rwN]
  | sel, f, anc, .elem t a cs, k, h => by
    rw [selN] at h
    rcases List.append_eq_nil.mp h with ⟨h1, h2⟩
    have hm : ¬ matchesSel sel t a anc = true := by
      intro hm
      rw [if_pos hm] at h1
      simp at h1
    rw [rwN]
    by_cases hk : k = 0
    · subst hk
      simp
    · rw [if_neg hk, if_neg hm]
      simp [rwL_of_selL_nil sel f ((t, a) :: anc) cs k h2]

theorem rwL_of_selL_nil :
    ∀ (sel : Sel) (f : Node → Node) (anc : List ElemInfo) (ns : List Node) (k : Nat),
      selL sel anc ns = [] → rwL sel f anc ns k = (ns, k)
  | sel, f, anc, [], k, _ => by rw [rwL]
  | sel, f, anc, n :: ns, k, h => by
    rw [selL] at h
    rcases List.append_eq_nil.mp h with ⟨h1, h2⟩
    rw [rwL]
    simp [rwN_of_selN_nil sel f anc n k h1, rwL_of_selL_nil sel f anc ns k h2]

end

mutual

theorem rwN_head :
    ∀ (sel : Sel) (f : Node → Node) (anc : List ElemInfo) (n m : Node) (ms : List Node),
      (∀ t a cs, ∃ cs', f (.elem t a cs) = .elem t a cs') →
      selN sel anc n = m :: ms →
      (rwN sel f anc n 1).2 = 0 ∧
      (selN sel anc (rwN sel f anc n 1).1).head? = some (f m)
  | sel, f, anc, .text s, m, ms, _, h => by
    rw [selN] at h
    exact absurd h (by simp)
  | sel, f, anc, .elem t a cs, m, ms, hf, h => by
    by_cases hm : matchesSel sel t a anc = true
    · rw [selN, if_pos hm] at h
      have hmn : m = Node.elem t a cs := (List.head_eq_of_cons_eq h).symm
      rw [rwN, if_neg (by omega : ¬ (1 : Nat) = 0), if_pos hm]
      refine ⟨rfl, ?_⟩
      obtain ⟨cs', hcs'⟩ := hf t a cs
      rw [hmn, hcs', selN, if_pos hm]
      simp
    · rw [selN, if_neg hm, List.nil_append] at h
      rw [rwN, if_neg (by omega : ¬ (1 : Nat) = 0), if_neg hm]
      obtain ⟨h2, hhd⟩ := rwL_head sel f ((t, a) :: anc) cs m ms hf h
      refine ⟨h2, ?_⟩
      rw [selN, if_neg hm, List.nil_append]
      exact hhd

theorem rwL_head :
    ∀ (sel : Sel) (f : Node → Node) (anc : List ElemInfo) (ns : List Node) (m : Node)
      (ms : List Node),
      (∀ t a cs, ∃ cs', f (.elem t a cs) = .elem t a cs') →
      selL sel anc ns = m :: ms →
      (rwL sel f anc ns 1).2 = 0 ∧
      (selL sel anc (rwL sel f anc ns 1).1).head? = some (f m)
  | sel, f, anc, [], m, ms, _, h => by
    rw [selL] at h
    exact absurd h (by simp)
  | sel, f, anc, n :: ns, m, ms, hf, h => by
    rw [selL] at h
    cases hn : selN sel anc n with
    | nil =>
      rw [hn, List.nil_append] at h
      obtain ⟨h2, hhd⟩ := rwL_head sel f anc ns m ms hf h
      rw [rwL]
      rw [rwN_of_selN_nil sel f anc n 1 hn]
      refine ⟨h2, ?_⟩
      rw [selL, hn, List.nil_append]
      exact hhd
    | cons m1 ms1 =>
      rw [hn] at h
      have hm1 : m1 = m := List.head_eq_of_cons_eq h
      subst hm1
      obtain ⟨h2, hhd⟩ := rwN_head sel f anc n m1 ms1 hf hn
      rw [rwL]
      simp only [h2]
      rw [rwL_zero sel f anc ns]
      refine ⟨rfl, ?_⟩
      rw [selL]
      cases hsel : selN sel anc (rwN sel f anc n 1).1 with
      | nil => rw [hsel] at hhd; simp at hhd
      | cons y ys =>
        rw [hsel] at hhd
        have : y = f m1 := by simpa using hhd
        subst this
        simp

end

theorem delL_append (sel : Sel) (anc : List ElemInfo) :
    ∀ (xs ys : List Node), delL sel anc (xs ++ ys) = delL sel anc xs ++ delL sel anc ys
  | [], ys => by rw [delL, List.nil_append, List.nil_append]
  | x :: xs, ys => by
    rw [List.cons_append, delL, delL, delL_append sel anc xs ys, List.append_assoc]

/- Deleting matches of a simple selector is idempotent (simple-selector
matching ignores the ancestor chain). -/

mutual

theorem delN_simple_idem :
    ∀ (ss : SimpleSel) (anc1 anc2 : List ElemInfo) (n : Node),
      delL (.simple ss) anc1 (delN (.simple ss) anc2 n) = delN (.simple ss) anc2 n
  | ss, anc1, anc2, .text s => by
    rw [delN]
    rw [show delL (.simple ss) anc1 [Node.text s] =
      delN (.simple ss) anc1 (Node.text s) ++ delL (.simple ss) anc1 [] from by
        simp [delL]]
    rw [delN, delL, List.append_nil]
  | ss, anc1, anc2, .elem t a cs => by
    rw [delN]
    by_cases hm : matchesSel (.simple ss) t a anc2 = true
    · rw [if_pos hm, delL]
    · rw [if_neg hm]
      have hm1 : ¬ matchesSel (.simple ss) t a anc1 = true := by
        rw [matchesSel] at hm ⊢
        exact hm
      rw [show delL (.simple ss) anc1
          [Node.elem t a (delL (.simple ss) ((t, a) :: anc2) cs)] =
        delN (.simple ss) anc1 (Node.elem t a (delL (.simple ss) ((t, a) :: anc2) cs)) ++
          delL (.simple ss) anc1 [] from by simp [delL]]
      rw [delN, if_neg hm1, delL, List.append_nil,
        delL_simple_idem ss ((t, a) :: anc1) ((t, a) :: anc2) cs]

theorem delL_simple_idem :
    ∀ (ss : SimpleSel) (anc1 anc2 : List ElemInfo) (ns : List Node),
      delL (.simple ss) anc1 (delL (.simple ss) anc2 ns) = delL (.simple ss) anc2 ns
  | ss, anc1, anc2, [] => by rw [delL, delL]
  | ss, anc1, anc2, n :: ns => by
    conv_rhs => rw [delL]
    rw [delL, delL_append, delN_simple_idem ss anc1 anc2 n,
      delL_simple_idem ss anc1 anc2 ns]

end

theorem strip_span_idem (n : Node) :
    Word.strip_span (Word.strip_span n) = Word.strip_span n := by
  cases n with
  | text s => rfl
  | elem t a cs =>
    simp only [Word.strip_span, Node.deleteAll, Word.span_selector]
    rw [delL_simple_idem]

/-- Second calls of `name` see the stripped headword as the first title
match again, so the returned text is stable. -/
theorem name_idem (sd : Word.SoupData) :
    (Word.name ((Word.name sd).2)).1 = (Word.name sd).1 := by
  cases sd with
  | none => rfl
  | some doc =>
    cases hh : (doc.select Word.title_selector).head? with
    | none =>
      simp [Word.name, hh]
    | some m =>
      cases doc with
      | text s =>
        rw [Node.select] at hh
        simp at hh
      | elem t a cs =>
        rw [Node.select] at hh
        cases hL : selL Word.title_selector [(t, a)] cs with
        | nil =>
          rw [hL] at hh
          simp at hh
        | cons m1 ms =>
          rw [hL] at hh
          have hm1 : m1 = m := by simpa using hh
          subst hm1
          obtain ⟨h2, hhd⟩ := rwL_head Word.title_selector Word.strip_span [(t, a)] cs m1 ms
            (fun t' a' cs' => ⟨_, rfl⟩) hL
          have hsel : (Node.elem t a cs).select Word.title_selector = m1 :: ms := by
            rw [Node.select]
            exact hL
          have hselR : ((Node.elem t a
              (rwL Word.title_selector Word.strip_span [(t, a)] cs 1).1).select
              Word.title_selector).head? = some (Word.strip_span m1) := by
            rw [Node.select]
            exact hhd
          simp only [Word.name, hsel, Node.rewriteFirstK, List.head?_cons, hselR]
          rw [strip_span_idem]

/-- C6 counterexample: after fetching the verb fixture, `verb_forms`
returns the irregular-forms mapping on the first call but `None` on the
second — the first call destructively stripped the prefix span, so the
results differ. -/
theorem C6_counterexample_verb_forms_not_idempotent :
    (Word.verb_forms (Word.get pageV none).2).1 =
      .ok (some [(pystr "root", (pystr "they ", pystr "try"))]) ∧
    (Word.verb_forms (Word.verb_forms (Word.get pageV none).2).2).1 = .ok none :=
  ⟨rfl, rfl⟩

/-- C6 (amended): every extraction operation except `verbForms` (and
`info`, which calls it on verb entries) yields an identical result when
called twice in succession on the same state — in particular `name`,
whose destructive span-stripping happens effectively once; `verbForms`
returns `None` on a second call whenever a prefix span was stripped. -/
theorem C6_amended_idempotent_ops (sd : Word.SoupData) :
    (Word.id ((Word.id sd).2)).1 = (Word.id sd).1 ∧
    (Word.name ((Word.name sd).2)).1 = (Word.name sd).1 ∧
    (Word.wordform ((Word.wordform sd).2)).1 = (Word.wordform sd).1 ∧
    (Word.property_global ((Word.property_global sd).2)).1 = (Word.property_global sd).1 ∧
    (Word.pronunciations ((Word.pronunciations sd).2)).1 = (Word.pronunciations sd).1 ∧
    (Word.references ((Word.references sd).2)).1 = (Word.references sd).1 ∧
    (Word.idioms ((Word.idioms sd).2)).1 = (Word.idioms sd).1 ∧
    (Word.definition_full ((Word.definition_full sd).2)).1 = (Word.definition_full sd).1 ∧
    (Word.phrasal_verbs ((Word.phrasal_verbs sd).2)).1 = (Word.phrasal_verbs sd).1 ∧
    (Word.other_results ((Word.other_results sd).2)).1 = (Word.other_results sd).1 :=
  ⟨rfl, name_idem sd, rfl, rfl, rfl, rfl, rfl, rfl, rfl, rfl⟩
